import Mathlib

/-!
Verification of the NawaCoLex SFM-lexicon conversion core.

This file gives a shallow embedding, in Lean 4, of the line-oriented
SFM/MDF parsing core of the repository:

* the marker-line classifier (regex `^\\([A-Za-z0-9_][A-Za-z0-9_-]*)\s*(.*)$`),
* `split_marker` (root / subpath decomposition at the first hyphen),
* the record parser `parse_sfm` of `merge_bible_into_raw_lexicon.py`
  (with a caller-supplied drop set),
* the record parser `parse_sfm` / `finalize_record` of `sfm_to_json.py`
  (with its separate `rec_idx` counter),
* the per-line fallback byte decoder `decode_mixed_lines`
  (identical, line for line, to `decode_bytes` of `sfm_to_json.py`),
* `strip_marker_from_records` of `sfm_to_json.py`,
* `add_or_replace_lexicon` of `merge_bible_into_raw_lexicon.py` and
  `merge_into_raw_lexicon` of `pdf_to_lexicon_json.py`.

Strings are modelled as `List Char`; byte buffers and decoded code-point
sequences as `List Nat`.  The parser is modelled over the list of lines
produced by Python's `text.splitlines()` (the split itself happens before
the parser runs; lines therefore contain no `\n` or `\r`, though the model
is defined on arbitrary lists of characters and keeps the source's
`rstrip("\r\n")` calls).
-/

/-- Strings of the Python source are modelled as lists of characters. -/
abbrev Str := List Char

/-- Characters treated as whitespace by Python's `str.strip` / `str.rstrip()`
and by the regex class `\s` (the Unicode whitespace code points). -/
def isPySpace (c : Char) : Bool :=
  c.toNat ∈ [9, 10, 11, 12, 13, 28, 29, 30, 31, 32, 0x85, 0xA0, 0x1680,
    0x2000, 0x2001, 0x2002, 0x2003, 0x2004, 0x2005, 0x2006, 0x2007, 0x2008,
    0x2009, 0x200A, 0x2028, 0x2029, 0x202F, 0x205F, 0x3000]

/-- Python `line.rstrip("\r\n")`: remove trailing carriage returns and
newlines. -/
def rstripCRLF (l : Str) : Str :=
  (l.reverse.dropWhile (fun c => c = '\r' || c = '\n')).reverse

/-- Python `s.rstrip()`: remove trailing whitespace. -/
def rstripSpace (l : Str) : Str :=
  (l.reverse.dropWhile isPySpace).reverse

/-- First character of a marker: the regex class `[A-Za-z0-9_]`. -/
def isMarkerFirst (c : Char) : Bool :=
  (('A' ≤ c && c ≤ 'Z') || ('a' ≤ c && c ≤ 'z') || ('0' ≤ c && c ≤ '9') || c = '_')

/-- Subsequent characters of a marker: the regex class `[A-Za-z0-9_-]`. -/
def isMarkerChar (c : Char) : Bool :=
  isMarkerFirst c || c = '-'

/-- `MARKER_LINE_RE.match(line)`: the regex
`^\\([A-Za-z0-9_][A-Za-z0-9_-]*)\s*(.*)$`.  All quantifiers are greedy and
the tail `(.*)$` always succeeds, so the match is: a backslash, then the
maximal run of marker characters (whose first character must not be a
hyphen), then the maximal run of whitespace, then the rest of the line.
Returns `some (marker, rest)` on a match (`rest` is `group(2)`, not yet
right-stripped), else `none`. -/
def markerMatch (line : Str) : Option (Str × Str) :=
  match line with
  | [] => none
  | c :: rest =>
    if c = '\\' then
      match rest with
      | [] => none
      | d :: rest2 =>
        if isMarkerFirst d then
          let marker := d :: rest2.takeWhile isMarkerChar
          let after := rest2.dropWhile isMarkerChar
          some (marker, after.dropWhile isPySpace)
        else none
    else none

/-- `split_marker` of `sfm_to_json.py` (= `split_root` of `script.py` and
`split_marker` of `merge_bible_into_raw_lexicon.py`):
`if "-" not in marker: return marker, None` else
`root, rest = marker.split("-", 1); return root, rest`. -/
def split_marker (marker : Str) : Str × Option Str :=
  if '-' ∈ marker then
    (marker.takeWhile (fun c => !(c = '-')), some ((marker.dropWhile (fun c => !(c = '-'))).tail))
  else (marker, none)

/-- One occurrence of a marker within a record:
the Python dict `{"marker": m, "root": r, "subpath": s, "value": v}`. -/
structure Item where
  marker : Str
  root : Str
  subpath : Option Str
  value : Str
deriving DecidableEq, Repr

/-- A record's aggregated field map: Python's insertion-ordered
`dict`/`defaultdict(list)` mapping marker → list of values, modelled as an
association list with (in all reachable states) unique keys. -/
abbrev Fields := List (Str × List Str)

/-- `fields.get(m)`: look a marker up in a field map. -/
def lookupF (fs : Fields) (m : Str) : Option (List Str) :=
  match fs with
  | [] => none
  | (k, vs) :: rest => if k = m then some vs else lookupF rest m

/-- `current_fields[marker].append(value)` on a `defaultdict(list)`:
append to the existing entry, or create a new entry at the end (Python
dicts preserve insertion order). -/
def fieldsAppend (fs : Fields) (m : Str) (v : Str) : Fields :=
  match fs with
  | [] => [(m, [v])]
  | (k, vs) :: rest =>
    if k = m then (k, vs ++ [v]) :: rest else (k, vs) :: fieldsAppend rest m v

/-- Replace the last element of a list (used for `vs[-1] = v`).  An empty
list is returned unchanged; in Python that case would raise `IndexError`,
and the reachability invariants below show it never occurs in any state the
parser reaches. -/
def setLastList (vs : List Str) (v : Str) : List Str :=
  match vs with
  | [] => []
  | [_] => [v]
  | x :: rest => x :: setLastList rest v

/-- `current_fields[mk][-1] = value`: update the trailing value stored for
marker `mk`.  A missing key is left untouched; in Python the `defaultdict`
would create an empty list and then raise `IndexError`, and the invariants
below show the key is always present and non-empty when this runs. -/
def fieldsSetLast (fs : Fields) (m : Str) (v : Str) : Fields :=
  match fs with
  | [] => []
  | (k, vs) :: rest =>
    if k = m then (k, setLastList vs v) :: rest else (k, vs) :: fieldsSetLast rest m v

/-- One emitted record: the Python dict
`{"record_index": i, "headword": h, "fields": f, "items": its}`. -/
structure SfmRecord where
  recordIndex : Nat
  headword : Option Str
  fields : Fields
  items : List Item
deriving DecidableEq, Repr

/-- `headword_from_fields` of `merge_bible_into_raw_lexicon.py` (also the
`Record.headword` property of `sfm_to_json.py`):
`v = fields.get("lx"); return v[0] if v else None` — an empty list is falsy,
so it also yields `None`. -/
def headword_from_fields (fs : Fields) : Option Str :=
  match lookupF fs ['l', 'x'] with
  | some (v :: _) => some v
  | _ => none

/-- The marker `"lx"`. -/
def lxM : Str := ['l', 'x']

/-- Replace the last item of an item list by `f` of it (Python mutates the
dict aliased by `last_item`, which is always the most recently appended
element of `current_items` whenever `last_item is not None`: it is set only
immediately after `current_items.append(item)` and cleared by `flush` and
by the drop branch). -/
def updateLast (items : List Item) (f : Item → Item) : List Item :=
  match items with
  | [] => []
  | [x] => [f x]
  | x :: rest => x :: updateLast rest f

/-- Set the value of the last item. -/
def updateLastValue (items : List Item) (v : Str) : List Item :=
  updateLast items (fun it => { it with value := v })

/-- The value of the most recently appended item (`last_item["value"]`). -/
def lastValue (items : List Item) : Str :=
  ((items.getLast?).map Item.value).getD []

/-- The marker of the most recently appended item (`last_item["marker"]`). -/
def lastMarker (items : List Item) : Str :=
  ((items.getLast?).map Item.marker).getD []

/-- `used_markers.add(m)`: a Python set, modelled as a duplicate-free list. -/
def insertIfAbsent (l : List Str) (m : Str) : List Str :=
  if m ∈ l then l else l ++ [m]

namespace MergeBible

/-- Accumulator state of `parse_sfm` in `merge_bible_into_raw_lexicon.py`:
`records_out`, `used_markers`, `current_items`, `current_fields`,
`current_has_lx`, and `last_item`.  Because `last_item`, when not `None`,
is always an alias of the last element of `current_items`, it is modelled
as the flag `lastOpen` together with in-place updates of that last
element. -/
structure ParseState where
  recordsOut : List SfmRecord
  usedMarkers : List Str
  currentItems : List Item
  currentFields : Fields
  currentHasLx : Bool
  lastOpen : Bool
deriving DecidableEq, Repr

/-- The nested `flush()` of `parse_sfm`: if both accumulators are empty,
only reset; otherwise emit a record with `record_index =
len(records_out) + 1`, headword computed from the fields, and reset. -/
def flushState (st : ParseState) : ParseState :=
  if st.currentItems = [] ∧ st.currentFields = [] then
    { st with currentItems := [], currentFields := [],
              currentHasLx := false, lastOpen := false }
  else
    { st with
      recordsOut := st.recordsOut ++
        [{ recordIndex := st.recordsOut.length + 1,
           headword := headword_from_fields st.currentFields,
           fields := st.currentFields,
           items := st.currentItems }],
      currentItems := [], currentFields := [],
      currentHasLx := false, lastOpen := false }

/-- The loop body of `parse_sfm` for one line, given the raw lookahead line
`nextRaw` (`lines[i + 1]` if it exists, else `""`). -/
def stepLine (drop : List Str) (st : ParseState) (rawLine : Str) (nextRaw : Str) :
    ParseState :=
  let line := rstripCRLF rawLine
  match markerMatch line with
  | some (marker, rawVal) =>
    let value := rstripSpace rawVal
    if marker ∈ drop then
      { st with lastOpen := false }
    else
      let st1 := if marker = lxM ∧ st.currentHasLx = true then flushState st else st
      let st2 := if marker = lxM then { st1 with currentHasLx := true } else st1
      let rs := split_marker marker
      let item : Item := { marker := marker, root := rs.1, subpath := rs.2, value := value }
      { st2 with
        currentItems := st2.currentItems ++ [item],
        currentFields := fieldsAppend st2.currentFields marker value,
        usedMarkers := insertIfAbsent st2.usedMarkers marker,
        lastOpen := true }
  | none =>
    if st.lastOpen = false then st
    else if line.all isPySpace then
      if (markerMatch (rstripCRLF nextRaw)).isSome then st
      else
        let oldVal := lastValue st.currentItems
        let newVal := if oldVal = [] then [] else oldVal ++ ['\n']
        { st with
          currentItems := updateLastValue st.currentItems newVal,
          currentFields := fieldsSetLast st.currentFields (lastMarker st.currentItems) newVal }
    else
      let cont := rstripSpace line
      let oldVal := lastValue st.currentItems
      let newVal := if oldVal = [] then cont else oldVal ++ '\n' :: cont
      { st with
        currentItems := updateLastValue st.currentItems newVal,
        currentFields := fieldsSetLast st.currentFields (lastMarker st.currentItems) newVal }

/-- The `for i, raw_line in enumerate(lines)` loop with its one-line
lookahead `lines[i + 1] if i + 1 < len(lines) else ""`. -/
def processLines (drop : List Str) (st : ParseState) : List Str → ParseState
  | [] => st
  | l :: ls => processLines drop (stepLine drop st l (ls.headD [])) ls

/-- The fresh accumulator state at the start of `parse_sfm`. -/
def initState : ParseState :=
  { recordsOut := [], usedMarkers := [], currentItems := [],
    currentFields := [], currentHasLx := false, lastOpen := false }

/-- `parse_sfm(text, drop_markers)` of `merge_bible_into_raw_lexicon.py`,
taking the list of lines `text.splitlines()` directly.  Returns
`(records_out, used_markers)` after the final `flush()`. -/
def parse_sfm (lines : List Str) (drop : List Str) : List SfmRecord × List Str :=
  let fin := flushState (processLines drop initState lines)
  (fin.recordsOut, fin.usedMarkers)

end MergeBible

namespace SfmToJson

/-- Accumulator state of `parse_sfm` in `sfm_to_json.py`: like the
`merge_bible` variant but with no drop set, no `used_markers`, and a
separate running counter `rec_idx` that is incremented by every `flush()`,
whether or not `finalize_record` emits. -/
structure SjState where
  recordsOut : List SfmRecord
  currentItems : List Item
  currentFields : Fields
  currentHasLx : Bool
  lastOpen : Bool
  recIdx : Nat
deriving DecidableEq, Repr

/-- `finalize_record(rec, out_list)` of `sfm_to_json.py`:
`if not rec.items and not rec.fields: return` else append
`{record_index, headword, fields, items}` (the `Record.headword` property
is `headword_from_fields`). -/
def finalize_record (items : List Item) (fields : Fields) (recIdx : Nat)
    (out : List SfmRecord) : List SfmRecord :=
  if items = [] ∧ fields = [] then out
  else
    out ++ [{ recordIndex := recIdx,
              headword := headword_from_fields fields,
              fields := fields, items := items }]

/-- The nested `flush()` of `sfm_to_json.parse_sfm`: call `finalize_record`
with the current `rec_idx`, then increment `rec_idx` and reset the
accumulators. -/
def sjFlush (st : SjState) : SjState :=
  { recordsOut := finalize_record st.currentItems st.currentFields st.recIdx st.recordsOut,
    currentItems := [], currentFields := [],
    currentHasLx := false, lastOpen := false,
    recIdx := st.recIdx + 1 }

/-- The loop body of `sfm_to_json.parse_sfm` for one line (identical to the
`merge_bible` variant minus the drop-set branch and `used_markers`). -/
def sjStep (st : SjState) (rawLine : Str) (nextRaw : Str) : SjState :=
  let line := rstripCRLF rawLine
  match markerMatch line with
  | some (marker, rawVal) =>
    let value := rstripSpace rawVal
    let st1 := if marker = lxM ∧ st.currentHasLx = true then sjFlush st else st
    let st2 := if marker = lxM then { st1 with currentHasLx := true } else st1
    let rs := split_marker marker
    let item : Item := { marker := marker, root := rs.1, subpath := rs.2, value := value }
    { st2 with
      currentItems := st2.currentItems ++ [item],
      currentFields := fieldsAppend st2.currentFields marker value,
      lastOpen := true }
  | none =>
    if st.lastOpen = false then st
    else if line.all isPySpace then
      if (markerMatch (rstripCRLF nextRaw)).isSome then st
      else
        let oldVal := lastValue st.currentItems
        let newVal := if oldVal = [] then [] else oldVal ++ ['\n']
        { st with
          currentItems := updateLastValue st.currentItems newVal,
          currentFields := fieldsSetLast st.currentFields (lastMarker st.currentItems) newVal }
    else
      let cont := rstripSpace line
      let oldVal := lastValue st.currentItems
      let newVal := if oldVal = [] then cont else oldVal ++ '\n' :: cont
      { st with
        currentItems := updateLastValue st.currentItems newVal,
        currentFields := fieldsSetLast st.currentFields (lastMarker st.currentItems) newVal }

/-- The line loop of `sfm_to_json.parse_sfm` with its one-line lookahead. -/
def sjProcess (st : SjState) : List Str → SjState
  | [] => st
  | l :: ls => sjProcess (sjStep st l (ls.headD [])) ls

/-- The fresh accumulator state (`rec_idx = 1`). -/
def sjInit : SjState :=
  { recordsOut := [], currentItems := [], currentFields := [],
    currentHasLx := false, lastOpen := false, recIdx := 1 }

/-- `parse_sfm(text)` of `sfm_to_json.py`, over the list of lines
`text.splitlines()`. -/
def parse_sfm (lines : List Str) : List SfmRecord :=
  (sjFlush (sjProcess sjInit lines)).recordsOut

/-- `strip_marker_from_records(records, marker)` of `sfm_to_json.py`:
for each record, `del r["fields"][marker]` when present (Python dict keys
are unique, so deleting the key removes every trace of it from the map),
and filter `marker` out of `r["items"]`.  Modelled functionally. -/
def strip_marker_from_records (records : List SfmRecord) (marker : Str) :
    List SfmRecord :=
  records.map (fun r =>
    { r with
      fields := r.fields.filter (fun kv => !(kv.1 = marker)),
      items := r.items.filter (fun it => !(it.marker = marker)) })

end SfmToJson

/-! ## The per-line fallback byte decoder

`decode_mixed_lines` of `merge_bible_into_raw_lexicon.py`; the body of
`decode_bytes` of `sfm_to_json.py` is line-for-line identical.  Bytes are
naturals `< 256`; decoded text is a list of Unicode code points. -/

/-- A UTF-8 continuation byte `0x80..0xBF`. -/
def isCont (b : Nat) : Bool := 0x80 ≤ b && b ≤ 0xBF

/-- Valid range of the first continuation byte of a 3-byte sequence,
depending on the lead byte (excludes overlong encodings for `0xE0` and
surrogate code points for `0xED`). -/
def utf8Cont3OK (b b2 : Nat) : Bool :=
  if b = 0xE0 then 0xA0 ≤ b2 && b2 ≤ 0xBF
  else if b = 0xED then 0x80 ≤ b2 && b2 ≤ 0x9F
  else isCont b2

/-- Valid range of the first continuation byte of a 4-byte sequence,
depending on the lead byte (excludes overlong encodings for `0xF0` and
code points above `U+10FFFF` for `0xF4`). -/
def utf8Cont4OK (b b2 : Nat) : Bool :=
  if b = 0xF0 then 0x90 ≤ b2 && b2 ≤ 0xBF
  else if b = 0xF4 then 0x80 ≤ b2 && b2 ≤ 0x8F
  else isCont b2

/-- `bline.decode("utf-8")` (strict): standard UTF-8 validation and
decoding; `none` models `UnicodeDecodeError`. -/
def utf8Decode : List Nat → Option (List Nat)
  | [] => some []
  | b :: rest =>
    if b < 0x80 then (utf8Decode rest).map (fun cs => b :: cs)
    else if 0xC2 ≤ b ∧ b ≤ 0xDF then
      match rest with
      | b2 :: rest2 =>
        if isCont b2 then
          (utf8Decode rest2).map (fun cs => ((b - 0xC0) * 0x40 + (b2 - 0x80)) :: cs)
        else none
      | [] => none
    else if 0xE0 ≤ b ∧ b ≤ 0xEF then
      match rest with
      | b2 :: b3 :: rest3 =>
        if utf8Cont3OK b b2 && isCont b3 then
          (utf8Decode rest3).map
            (fun cs => ((b - 0xE0) * 0x1000 + (b2 - 0x80) * 0x40 + (b3 - 0x80)) :: cs)
        else none
      | _ => none
    else if 0xF0 ≤ b ∧ b ≤ 0xF4 then
      match rest with
      | b2 :: b3 :: b4 :: rest4 =>
        if utf8Cont4OK b b2 && isCont b3 && isCont b4 then
          (utf8Decode rest4).map
            (fun cs => ((b - 0xF0) * 0x40000 + (b2 - 0x80) * 0x1000 +
                        (b3 - 0x80) * 0x40 + (b4 - 0x80)) :: cs)
        else none
      | _ => none
    else none

/-- The cp1252 mapping of the bytes `0x80..0x9F` that differ from their
code-point value; the five bytes `0x81, 0x8D, 0x8F, 0x90, 0x9D` are
undefined in cp1252 and are absent from this table. -/
def cp1252HighTable : List (Nat × Nat) :=
  [(0x80, 0x20AC), (0x82, 0x201A), (0x83, 0x0192), (0x84, 0x201E),
   (0x85, 0x2026), (0x86, 0x2020), (0x87, 0x2021), (0x88, 0x02C6),
   (0x89, 0x2030), (0x8A, 0x0160), (0x8B, 0x2039), (0x8C, 0x0152),
   (0x8E, 0x017D), (0x91, 0x2018), (0x92, 0x2019), (0x93, 0x201C),
   (0x94, 0x201D), (0x95, 0x2022), (0x96, 0x2013), (0x97, 0x2014),
   (0x98, 0x02DC), (0x99, 0x2122), (0x9A, 0x0161), (0x9B, 0x203A),
   (0x9C, 0x0153), (0x9E, 0x017E), (0x9F, 0x0178)]

/-- Decode a single byte as cp1252; `none` for the five undefined bytes. -/
def cp1252Byte (b : Nat) : Option Nat :=
  if b < 0x80 ∨ 0xA0 ≤ b then some b else cp1252HighTable.lookup b

/-- `bline.decode("cp1252")` (strict). -/
def cp1252Decode (l : List Nat) : Option (List Nat) :=
  l.mapM cp1252Byte

/-- `bline.decode("latin-1", errors="replace")`: latin-1 maps every byte
`b` to code point `b`, so it never fails and the replacement handler is
never invoked — this strategy is total. -/
def latin1Replace (l : List Nat) : List Nat :=
  l.map (fun b => b)

/-- `data.splitlines(keepends=False)` on bytes: split on `\r\n`, `\r`, `\n`;
a trailing terminator does not create a final empty line.  `go cur l`
accumulates the current line in reverse in `cur`. -/
def bSplitGo : List Nat → List Nat → List (List Nat)
  | cur, [] => [cur.reverse]
  | cur, 13 :: 10 :: r => cur.reverse :: (if r.isEmpty then [] else bSplitGo [] r)
  | cur, 13 :: r => cur.reverse :: (if r.isEmpty then [] else bSplitGo [] r)
  | cur, 10 :: r => cur.reverse :: (if r.isEmpty then [] else bSplitGo [] r)
  | cur, b :: r => bSplitGo (b :: cur) r

/-- `data.splitlines(keepends=False)` on bytes (empty input gives no
lines). -/
def bSplitlines (data : List Nat) : List (List Nat) :=
  if data.isEmpty then [] else bSplitGo [] data

/-- `if lines and lines[0].startswith(b"\xef\xbb\xbf"): lines[0] = lines[0][3:]` —
strip a UTF-8 byte-order mark from the start of the first line only. -/
def stripBOM (ls : List (List Nat)) : List (List Nat) :=
  match ls with
  | [] => []
  | l :: rest =>
    (if l.take 3 = [0xEF, 0xBB, 0xBF] then l.drop 3 else l) :: rest

/-- The per-line body of the decoder loop: an empty byte line appends `""`
without attempting any decoding; otherwise `try utf-8` /
`except: try cp1252` / `except: latin-1 with replacement`. -/
def decodeLineImpl (bl : List Nat) : List Nat :=
  if bl = [] then []
  else
    match utf8Decode bl with
    | some s => s
    | none =>
      match cp1252Decode bl with
      | some s => s
      | none => latin1Replace bl

/-- `decode_mixed_lines(data)` of `merge_bible_into_raw_lexicon.py`
(= `decode_bytes(data)` of `sfm_to_json.py`): split into byte lines, strip
the BOM from the first line, decode each line by the fallback chain into an
accumulating output list, and return the lines joined with `"\n"` plus the
strategy label. -/
def decode_mixed_lines (data : List Nat) : List Nat × String :=
  let lines := stripBOM (bSplitlines data)
  let out := lines.foldl (fun acc bl => acc ++ [decodeLineImpl bl]) []
  (List.intercalate [10] out, "per-line: utf-8 else cp1252 else latin-1")

/-- Modelled from the spec's wording of the decoding strategy (§4.1): for
each line, the result of the *first* strategy that succeeds, in the strict
order UTF-8, cp1252, latin-1-with-replacement; empty lines decode to the
empty string trivially.  Stated separately from `decodeLineImpl` so the
loop implementation can be proved to refine it. -/
def decodeLineSpec (bl : List Nat) : List Nat :=
  if bl = [] then []
  else (((utf8Decode bl).or (cp1252Decode bl)).or (some (latin1Replace bl))).getD []

/-! ## Merge orchestration (`add_or_replace_lexicon`, `merge_into_raw_lexicon`) -/

/-- One entry of the top-level `sources` bibliography list. -/
structure SourceMeta where
  id : Str
  name : Str
  bibliography : Str
deriving DecidableEq, Repr

/-- One entry of the top-level `lexicons` list.  `sourceId = none` models
both a dict without a `"source_id"` key and a non-dict entry (both fail the
`isinstance(lex, dict) and lex.get("source_id") == source_id` test). -/
structure Lexicon where
  sourceId : Option Str
  records : List SfmRecord
deriving DecidableEq, Repr

/-- The base JSON document being merged into. -/
structure BaseDoc where
  sources : List SourceMeta
  lexicons : List Lexicon
deriving DecidableEq, Repr

/-- `add_or_replace_lexicon(base, source_id, records, replace)` of
`merge_bible_into_raw_lexicon.py`: find the first lexicon whose
`source_id` matches; append a fresh one when there is none, replace it in
place when `replace` is set, and otherwise raise `ValueError`. -/
def add_or_replace_lexicon (base : BaseDoc) (sourceId : Str)
    (records : List SfmRecord) (replace : Bool) : Except String BaseDoc :=
  let lexObj : Lexicon := { sourceId := some sourceId, records := records }
  match base.lexicons.findIdx? (fun lex => lex.sourceId = some sourceId) with
  | none => .ok { base with lexicons := base.lexicons ++ [lexObj] }
  | some i =>
    if replace then .ok { base with lexicons := base.lexicons.set i lexObj }
    else .error "raw_lexicon_old.json ya contiene un lexicon con ese source_id. Usa --replace para reemplazarlo."

/-- `merge_into_raw_lexicon(base, new_source, new_lexicon)` of
`pdf_to_lexicon_json.py`: append the source when its id is new; raise
`ValueError` when a lexicon with the same `source_id` already exists, else
append the new lexicon.  (`new_lexicon["source_id"]` is always a string in
the caller, hence the `Str` parameter.) -/
def merge_into_raw_lexicon (base : BaseDoc) (newSource : SourceMeta)
    (newSourceId : Str) (records : List SfmRecord) : Except String BaseDoc :=
  let sources :=
    if base.sources.any (fun s => s.id = newSource.id) then base.sources
    else base.sources ++ [newSource]
  if base.lexicons.any (fun lex => lex.sourceId = some newSourceId) then
    .error "Ya existe un lexicon con ese source_id en el JSON base."
  else
    .ok { sources := sources,
          lexicons := base.lexicons ++ [{ sourceId := some newSourceId, records := records }] }

/-! ## Derived observables used in the statements and invariants -/

/-- The field map determined by an item list: group the values by marker in
appearance order (the parser's `current_fields` is maintained to be exactly
this view of `current_items`). -/
def fieldsOfItems (items : List Item) : Fields :=
  items.foldl (fun fs it => fieldsAppend fs it.marker it.value) []

/-- The items of a record carrying a given marker, in order. -/
def itemsFor (items : List Item) (m : Str) : List Item :=
  items.filter (fun it => it.marker = m)

/-- Number of items whose marker is exactly `lx`. -/
def countLxItems (items : List Item) : Nat :=
  (itemsFor items lxM).length

/-- Whether a raw input line is an `lx` marker line that survives drop-set
filtering (the lines counted by the record-count invariant). -/
def isCountedLx (drop : List Str) (rawLine : Str) : Bool :=
  match markerMatch (rstripCRLF rawLine) with
  | some (m, _) => decide (m = lxM ∧ m ∉ drop)
  | none => false

/-- Whether a raw input line creates an item: a marker line whose marker is
not in the drop set. -/
def createsItem (drop : List Str) (rawLine : Str) : Bool :=
  match markerMatch (rstripCRLF rawLine) with
  | some (m, _) => decide (m ∉ drop)
  | none => false

/-- Number of counted `lx` marker lines in an input. -/
def countLx (drop : List Str) (lines : List Str) : Nat :=
  lines.countP (isCountedLx drop)

/-- Whether any line of the input creates an item. -/
def anyItemLine (drop : List Str) (lines : List Str) : Bool :=
  lines.any (createsItem drop)

namespace MergeBible

/-- Bookkeeping quantity: emitted records plus the open record when it has
seen an `lx` line.  Each counted `lx` line increases it by exactly one. -/
def gval (st : ParseState) : Nat :=
  st.recordsOut.length + (if st.currentHasLx = true then 1 else 0)

/-- Well-formedness of an emitted record. -/
structure RecOK (drop : List Str) (r : SfmRecord) : Prop where
  nonempty : r.items ≠ []
  fields_eq : r.fields = fieldsOfItems r.items
  headword_eq : r.headword = headword_from_fields r.fields
  lx_count : countLxItems r.items ≤ 1
  items_drop : ∀ it ∈ r.items, it.marker ∉ drop

/-- The reachability invariant of the parser state. -/
structure InvP (drop : List Str) (st : ParseState) : Prop where
  hasLx_items : st.currentHasLx = true → st.currentItems ≠ []
  open_items : st.lastOpen = true → st.currentItems ≠ []
  fields_eq : st.currentFields = fieldsOfItems st.currentItems
  lx_count : countLxItems st.currentItems = (if st.currentHasLx = true then 1 else 0)
  items_drop : ∀ it ∈ st.currentItems, it.marker ∉ drop
  recs_ok : ∀ r ∈ st.recordsOut, RecOK drop r
  idx_seq : st.recordsOut.map SfmRecord.recordIndex = List.range' 1 st.recordsOut.length

end MergeBible

namespace SfmToJson

/-- Well-formedness of a record emitted by the `sfm_to_json` variant. -/
structure RecOKJ (r : SfmRecord) : Prop where
  nonempty : r.items ≠ []
  headword_eq : r.headword = headword_from_fields r.fields

/-- The reachability invariant of the `sfm_to_json` parser state, including
the `rec_idx` bookkeeping. -/
structure InvJ (st : SjState) : Prop where
  hasLx_items : st.currentHasLx = true → st.currentItems ≠ []
  open_items : st.lastOpen = true → st.currentItems ≠ []
  fields_eq : st.currentFields = fieldsOfItems st.currentItems
  recs_ok : ∀ r ∈ st.recordsOut, RecOKJ r
  rec_idx : st.recIdx = st.recordsOut.length + 1
  idx_seq : st.recordsOut.map SfmRecord.recordIndex = List.range' 1 st.recordsOut.length

end SfmToJson

/-! ## Helper lemmas about the field-map operations -/

theorem setLastList_append (vs : List Str) (v v' : Str) :
    setLastList (vs ++ [v]) v' = vs ++ [v'] := by
  induction vs with
  | nil => rfl
  | cons x rest ih =>
    cases rest with
    | nil => rfl
    | cons y t =>
      simpa [setLastList] using ih

theorem fieldsSetLast_fieldsAppend (fs : Fields) (m : Str) (v v' : Str) :
    fieldsSetLast (fieldsAppend fs m v) m v' = fieldsAppend fs m v' := by
  induction fs with
  | nil => simp [fieldsAppend, fieldsSetLast, setLastList]
  | cons kv rest ih =>
    obtain ⟨k, vs⟩ := kv
    by_cases hk : k = m
    · simp [fieldsAppend, fieldsSetLast, hk, setLastList_append]
    · simp [fieldsAppend, fieldsSetLast, hk, ih]

theorem updateLast_append (xs : List Item) (x : Item) (f : Item → Item) :
    updateLast (xs ++ [x]) f = xs ++ [f x] := by
  induction xs with
  | nil => rfl
  | cons y rest ih =>
    cases rest with
    | nil => rfl
    | cons z t =>
      simpa [updateLast] using ih

theorem fieldsAppend_ne_nil (fs : Fields) (m : Str) (v : Str) :
    fieldsAppend fs m v ≠ [] := by
  cases fs with
  | nil => simp [fieldsAppend]
  | cons kv rest =>
    obtain ⟨k, vs⟩ := kv
    by_cases hk : k = m <;> simp [fieldsAppend, hk]

theorem fieldsOfItems_concat (xs : List Item) (x : Item) :
    fieldsOfItems (xs ++ [x]) = fieldsAppend (fieldsOfItems xs) x.marker x.value := by
  simp [fieldsOfItems, List.foldl_append]

theorem fieldsOfItems_ne_nil (xs : List Item) (h : xs ≠ []) :
    fieldsOfItems xs ≠ [] := by
  rcases List.eq_nil_or_concat xs with rfl | ⟨ys, y, rfl⟩
  · exact absurd rfl h
  · rw [List.concat_eq_append, fieldsOfItems_concat]
    exact fieldsAppend_ne_nil _ _ _

theorem lookupF_fieldsAppend (fs : Fields) (m m' : Str) (v : Str) :
    lookupF (fieldsAppend fs m' v) m =
      if m = m' then some (((lookupF fs m).getD []) ++ [v]) else lookupF fs m := by
  induction fs with
  | nil =>
    by_cases h : m = m'
    · subst h
      simp [fieldsAppend, lookupF]
    · simp [fieldsAppend, lookupF, h, Ne.symm h]
  | cons kv rest ih =>
    obtain ⟨k, vs⟩ := kv
    simp only [fieldsAppend]
    by_cases hk : k = m'
    · subst hk
      simp only [if_pos rfl]
      by_cases hm : k = m
      · subst hm
        simp [lookupF]
      · simp [lookupF, hm, Ne.symm hm]
    · simp only [if_neg hk]
      by_cases hm : k = m
      · subst hm
        simp [lookupF, hk]
      · simp [lookupF, hm, ih]

theorem itemsFor_append (xs ys : List Item) (m : Str) :
    itemsFor (xs ++ ys) m = itemsFor xs m ++ itemsFor ys m := by
  simp [itemsFor, List.filter_append]

theorem lookupF_fieldsOfItems (items : List Item) (m : Str) :
    lookupF (fieldsOfItems items) m =
      if itemsFor items m = [] then none
      else some ((itemsFor items m).map Item.value) := by
  induction items using List.reverseRecOn with
  | nil => simp [fieldsOfItems, lookupF, itemsFor]
  | append_singleton xs x ih =>
    rw [fieldsOfItems_concat, lookupF_fieldsAppend, ih, itemsFor_append]
    have hx : itemsFor [x] m = if x.marker = m then [x] else [] := by
      simp only [itemsFor, List.filter]
      by_cases hm : x.marker = m <;> simp [hm]
    rw [hx]
    by_cases hm : x.marker = m
    · rw [if_pos hm, if_pos hm.symm]
      by_cases he : itemsFor xs m = []
      · simp [he]
      · simp [he]
    · rw [if_neg hm, if_neg (Ne.symm hm)]
      simp

theorem updateLastValue_ne_nil (items : List Item) (v : Str) (h : items ≠ []) :
    updateLastValue items v ≠ [] := by
  cases items with
  | nil => exact absurd rfl h
  | cons x rest => cases rest <;> simp [updateLastValue, updateLast]

theorem updateLastValue_cons_cons (x y : Item) (t : List Item) (v : Str) :
    updateLastValue (x :: y :: t) v = x :: updateLastValue (y :: t) v := rfl

theorem itemsFor_length_updateLastValue (items : List Item) (v m : Str) :
    (itemsFor (updateLastValue items v) m).length = (itemsFor items m).length := by
  induction items with
  | nil => rfl
  | cons x rest ih =>
    cases rest with
    | nil =>
      by_cases h : x.marker = m <;>
        simp [updateLastValue, updateLast, itemsFor, List.filter, h]
    | cons y t =>
      rw [updateLastValue_cons_cons]
      by_cases h : x.marker = m <;>
        simp [itemsFor, List.filter_cons, h] at ih ⊢ <;> omega

theorem countLxItems_updateLastValue (items : List Item) (v : Str) :
    countLxItems (updateLastValue items v) = countLxItems items := by
  simp [countLxItems, itemsFor_length_updateLastValue]

theorem updateLastValue_marker_pred (items : List Item) (v : Str)
    (P : Str → Prop) (h : ∀ it ∈ items, P it.marker) :
    ∀ it ∈ updateLastValue items v, P it.marker := by
  induction items with
  | nil => simp [updateLastValue, updateLast]
  | cons x rest ih =>
    cases rest with
    | nil =>
      intro it hit
      simp [updateLastValue, updateLast] at hit
      subst hit
      exact h x (by simp)
    | cons y t =>
      intro it hit
      rw [updateLastValue_cons_cons] at hit
      rcases List.mem_cons.1 hit with rfl | hit'
      · exact h it (by simp)
      · exact ih (fun j hj => h j (List.mem_cons_of_mem _ hj)) it hit'

theorem fieldsOfItems_updateLastValue (xs : List Item) (x : Item) (v : Str) :
    fieldsOfItems (updateLastValue (xs ++ [x]) v) =
      fieldsSetLast (fieldsOfItems (xs ++ [x])) x.marker v := by
  rw [updateLastValue, updateLast_append, fieldsOfItems_concat, fieldsOfItems_concat,
    fieldsSetLast_fieldsAppend]

theorem countLxItems_concat (xs : List Item) (x : Item) :
    countLxItems (xs ++ [x]) =
      countLxItems xs + (if x.marker = lxM then 1 else 0) := by
  by_cases h : x.marker = lxM <;>
    simp [countLxItems, itemsFor_append, itemsFor, List.filter, h]

namespace MergeBible

theorem flushState_emit (st : ParseState) (hne : st.currentItems ≠ []) :
    flushState st =
      { st with
        recordsOut := st.recordsOut ++
          [{ recordIndex := st.recordsOut.length + 1,
             headword := headword_from_fields st.currentFields,
             fields := st.currentFields,
             items := st.currentItems }],
        currentItems := [], currentFields := [],
        currentHasLx := false, lastOpen := false } := by
  have hf : ¬ (st.currentItems = [] ∧ st.currentFields = []) := fun h => hne h.1
  simp [flushState, hf]

theorem flushState_inv (drop : List Str) (st : ParseState) (hInv : InvP drop st)
    (hne : st.currentItems ≠ []) :
    InvP drop (flushState st) := by
  rw [flushState_emit st hne]
  refine ⟨?_, ?_, rfl, ?_, ?_, ?_, ?_⟩
  · intro h; cases h
  · intro h; cases h
  · simp [countLxItems, itemsFor]
  · intro it hit; cases hit
  · intro r hr
    rcases List.mem_append.1 hr with hr | hr
    · exact hInv.recs_ok r hr
    · rcases List.mem_singleton.1 hr with rfl
      exact ⟨hne, hInv.fields_eq, rfl,
        by rw [hInv.lx_count]; split <;> omega,
        hInv.items_drop⟩
  · simp only [List.map_append, List.map_cons, List.map_nil, List.length_append,
      List.length_cons, List.length_nil, hInv.idx_seq]
    have := List.range'_1_concat 1 st.recordsOut.length
    simpa [Nat.add_comm] using this.symm

theorem value_update_inv (drop : List Str) (st : ParseState) (hInv : InvP drop st)
    (hne : st.currentItems ≠ []) (nv : Str) :
    InvP drop { st with
      currentItems := updateLastValue st.currentItems nv,
      currentFields := fieldsSetLast st.currentFields (lastMarker st.currentItems) nv } := by
  obtain ⟨xs, x, hx⟩ : ∃ xs x, st.currentItems = xs ++ [x] := by
    rcases List.eq_nil_or_concat st.currentItems with h | ⟨xs, x, h⟩
    · exact absurd h hne
    · exact ⟨xs, x, by simpa using h⟩
  have hlm : lastMarker st.currentItems = x.marker := by
    rw [hx]; simp [lastMarker, List.getLast?_concat]
  refine ⟨?_, ?_, ?_, ?_, ?_, hInv.recs_ok, hInv.idx_seq⟩
  · intro _
    exact updateLastValue_ne_nil _ _ hne
  · intro _
    exact updateLastValue_ne_nil _ _ hne
  · rw [hlm, hInv.fields_eq, hx, fieldsOfItems_updateLastValue]
  · rw [countLxItems_updateLastValue, hInv.lx_count]
  · exact updateLastValue_marker_pred st.currentItems nv (fun s => s ∉ drop)
      hInv.items_drop

theorem stepLine_spec (drop : List Str) (st : ParseState) (l nx : Str)
    (hInv : InvP drop st) :
    InvP drop (stepLine drop st l nx)
    ∧ gval (stepLine drop st l nx) = gval st + (if isCountedLx drop l then 1 else 0)
    ∧ (stepLine drop st l nx).currentHasLx = (st.currentHasLx || isCountedLx drop l)
    ∧ ((stepLine drop st l nx).currentItems = [] ↔
        (st.currentItems = [] ∧ createsItem drop l = false)) := by
  cases hm : markerMatch (rstripCRLF l) with
  | none =>
    have hc : isCountedLx drop l = false := by simp [isCountedLx, hm]
    have hcr : createsItem drop l = false := by simp [createsItem, hm]
    by_cases ho : st.lastOpen = true
    · have hne := hInv.open_items ho
      by_cases hblank : (rstripCRLF l).all isPySpace
      · by_cases hnext : (markerMatch (rstripCRLF nx)).isSome
        · have hstep : stepLine drop st l nx = st := by
            simp [stepLine, hm, ho, hblank, hnext]
          rw [hstep, hc, hcr]
          exact ⟨hInv, by simp, by simp, by simp⟩
        · have hstep : stepLine drop st l nx =
              { st with
                currentItems := updateLastValue st.currentItems
                  (if lastValue st.currentItems = [] then []
                   else lastValue st.currentItems ++ ['\n']),
                currentFields := fieldsSetLast st.currentFields (lastMarker st.currentItems)
                  (if lastValue st.currentItems = [] then []
                   else lastValue st.currentItems ++ ['\n']) } := by
            simp [stepLine, hm, ho, hblank, hnext]
          rw [hstep, hc, hcr]
          refine ⟨value_update_inv drop st hInv hne _, by simp [gval], by simp, ?_⟩
          simp [updateLastValue_ne_nil _ _ hne, hne]
      · have hstep : stepLine drop st l nx =
            { st with
              currentItems := updateLastValue st.currentItems
                (if lastValue st.currentItems = [] then rstripSpace (rstripCRLF l)
                 else lastValue st.currentItems ++ '\n' :: rstripSpace (rstripCRLF l)),
              currentFields := fieldsSetLast st.currentFields (lastMarker st.currentItems)
                (if lastValue st.currentItems = [] then rstripSpace (rstripCRLF l)
                 else lastValue st.currentItems ++ '\n' :: rstripSpace (rstripCRLF l)) } := by
          simp [stepLine, hm, ho, hblank]
        rw [hstep, hc, hcr]
        refine ⟨value_update_inv drop st hInv hne _, by simp [gval], by simp, ?_⟩
        simp [updateLastValue_ne_nil _ _ hne, hne]
    · have ho' : st.lastOpen = false := by
        cases hv : st.lastOpen
        · rfl
        · exact absurd hv ho
      have hstep : stepLine drop st l nx = st := by
        simp [stepLine, hm, ho']
      rw [hstep, hc, hcr]
      exact ⟨hInv, by simp, by simp, by simp⟩
  | some mw =>
    obtain ⟨m, w⟩ := mw
    by_cases hdrop : m ∈ drop
    · have hc : isCountedLx drop l = false := by simp [isCountedLx, hm, hdrop]
      have hcr : createsItem drop l = false := by simp [createsItem, hm, hdrop]
      have hstep : stepLine drop st l nx = { st with lastOpen := false } := by
        simp [stepLine, hm, hdrop]
      rw [hstep, hc, hcr]
      refine ⟨⟨hInv.hasLx_items, ?_, hInv.fields_eq, hInv.lx_count, hInv.items_drop,
        hInv.recs_ok, hInv.idx_seq⟩, by simp [gval], by simp, by simp⟩
      intro h; cases h
    · by_cases hlx : m = lxM
      · subst hlx
        have hc : isCountedLx drop l = true := by
          simp [isCountedLx, hm, hdrop]
        have hcr : createsItem drop l = true := by
          simp [createsItem, hm, hdrop]
        by_cases hh : st.currentHasLx = true
        · have hne : st.currentItems ≠ [] := hInv.hasLx_items hh
          have hstep : stepLine drop st l nx =
              { recordsOut := st.recordsOut ++
                  [{ recordIndex := st.recordsOut.length + 1,
                     headword := headword_from_fields st.currentFields,
                     fields := st.currentFields,
                     items := st.currentItems }],
                usedMarkers := insertIfAbsent st.usedMarkers lxM,
                currentItems := [{ marker := lxM, root := (split_marker lxM).1,
                                   subpath := (split_marker lxM).2,
                                   value := rstripSpace w }],
                currentFields := fieldsAppend [] lxM (rstripSpace w),
                currentHasLx := true,
                lastOpen := true } := by
            simp [stepLine, hm, hdrop, hh, flushState_emit st hne]
          have hflush := flushState_inv drop st hInv hne
          rw [flushState_emit st hne] at hflush
          rw [hstep, hc]
          refine ⟨⟨?_, ?_, ?_, ?_, ?_, hflush.recs_ok, hflush.idx_seq⟩, ?_, ?_, ?_⟩
          · intro _; simp
          · intro _; simp
          · rfl
          · simp [countLxItems, itemsFor, List.filter, lxM]
          · intro it hit
            rcases List.mem_singleton.1 hit with rfl
            exact hdrop
          · simp [gval, hh]
          · simp [hh]
          · simp [hcr]
        · have hh' : st.currentHasLx = false := by
            cases hv : st.currentHasLx
            · rfl
            · exact absurd hv hh
          have hstep : stepLine drop st l nx =
              { st with
                currentItems := st.currentItems ++
                  [{ marker := lxM, root := (split_marker lxM).1,
                     subpath := (split_marker lxM).2,
                     value := rstripSpace w }],
                currentFields := fieldsAppend st.currentFields lxM (rstripSpace w),
                usedMarkers := insertIfAbsent st.usedMarkers lxM,
                currentHasLx := true,
                lastOpen := true } := by
            simp [stepLine, hm, hdrop, hh']
          rw [hstep, hc]
          refine ⟨⟨?_, ?_, ?_, ?_, ?_, hInv.recs_ok, hInv.idx_seq⟩, ?_, ?_, ?_⟩
          · intro _; simp
          · intro _; simp
          · rw [hInv.fields_eq, fieldsOfItems_concat]
          · rw [countLxItems_concat, hInv.lx_count, hh']
            simp [lxM]
          · intro it hit
            rcases List.mem_append.1 hit with hit | hit
            · exact hInv.items_drop it hit
            · rcases List.mem_singleton.1 hit with rfl
              exact hdrop
          · simp [gval, hh']
          · simp [hh']
          · simp [hcr]
      · have hc : isCountedLx drop l = false := by
          simp [isCountedLx, hm, hlx]
        have hcr : createsItem drop l = true := by
          simp [createsItem, hm, hdrop]
        have hstep : stepLine drop st l nx =
            { st with
              currentItems := st.currentItems ++
                [{ marker := m, root := (split_marker m).1,
                   subpath := (split_marker m).2,
                   value := rstripSpace w }],
              currentFields := fieldsAppend st.currentFields m (rstripSpace w),
              usedMarkers := insertIfAbsent st.usedMarkers m,
              lastOpen := true } := by
          simp [stepLine, hm, hdrop, hlx]
        rw [hstep, hc, hcr]
        refine ⟨⟨?_, ?_, ?_, ?_, ?_, hInv.recs_ok, hInv.idx_seq⟩, ?_, ?_, ?_⟩
        · intro _; simp
        · intro _; simp
        · rw [hInv.fields_eq, fieldsOfItems_concat]
        · rw [countLxItems_concat, hInv.lx_count]
          simp [hlx]
        · intro it hit
          rcases List.mem_append.1 hit with hit | hit
          · exact hInv.items_drop it hit
          · rcases List.mem_singleton.1 hit with rfl
            exact hdrop
        · simp [gval]
        · simp
        · simp [hcr]

theorem processLines_spec (drop : List Str) :
    ∀ (ls : List Str) (st : ParseState), InvP drop st →
      InvP drop (processLines drop st ls)
      ∧ gval (processLines drop st ls) = gval st + countLx drop ls
      ∧ (processLines drop st ls).currentHasLx
          = (st.currentHasLx || ls.any (isCountedLx drop))
      ∧ ((processLines drop st ls).currentItems = [] ↔
          (st.currentItems = [] ∧ anyItemLine drop ls = false))
  | [], st, hInv => by
    refine ⟨hInv, by simp [processLines, countLx], ?_, ?_⟩
    · simp [processLines]
    · simp [processLines, anyItemLine]
  | l :: ls, st, hInv => by
    have hstep := stepLine_spec drop st l (ls.headD []) hInv
    have hrec := processLines_spec drop ls (stepLine drop st l (ls.headD [])) hstep.1
    have hpl : processLines drop st (l :: ls)
        = processLines drop (stepLine drop st l (ls.headD [])) ls := rfl
    rw [hpl]
    refine ⟨hrec.1, ?_, ?_, ?_⟩
    · rw [hrec.2.1, hstep.2.1]
      simp only [countLx, List.countP_cons]
      omega
    · rw [hrec.2.2.1, hstep.2.2.1, List.any_cons]
      cases st.currentHasLx <;> cases hv : isCountedLx drop l <;> simp [hv]
    · rw [hrec.2.2.2, hstep.2.2.2]
      simp only [anyItemLine, List.any_cons]
      cases hv : createsItem drop l <;> simp [hv, and_assoc]

theorem initState_inv (drop : List Str) : InvP drop initState := by
  refine ⟨?_, ?_, rfl, ?_, ?_, ?_, ?_⟩ <;>
    simp [initState, countLxItems, itemsFor, fieldsOfItems]

theorem parse_sfm_spec (lines drop : List Str) :
    (∀ r ∈ (parse_sfm lines drop).1, RecOK drop r)
    ∧ (parse_sfm lines drop).1.map SfmRecord.recordIndex
        = List.range' 1 (parse_sfm lines drop).1.length
    ∧ (parse_sfm lines drop).1.length =
        (if countLx drop lines ≠ 0 then countLx drop lines
         else if anyItemLine drop lines then 1 else 0) := by
  have h := processLines_spec drop lines initState (initState_inv drop)
  set stF := processLines drop initState lines with hstF
  have hInvF := h.1
  have hg : gval stF = countLx drop lines := by
    rw [h.2.1]; simp [gval, initState]
  have hlx : stF.currentHasLx = lines.any (isCountedLx drop) := by
    rw [h.2.2.1]; simp [initState]
  have hitems : stF.currentItems = [] ↔ anyItemLine drop lines = false := by
    rw [h.2.2.2]; simp [initState]
  by_cases hni : stF.currentItems = []
  · have hfe : stF.currentFields = [] := by
      rw [hInvF.fields_eq, hni]; rfl
    have hflush : flushState stF =
        { stF with currentItems := [], currentFields := [],
                   currentHasLx := false, lastOpen := false } := by
      simp [flushState, hni, hfe]
    have hrecs : (parse_sfm lines drop).1 = stF.recordsOut := by
      simp [parse_sfm, ← hstF, hflush]
    have hhlxF : stF.currentHasLx = false := by
      cases hv : stF.currentHasLx
      · rfl
      · exact absurd hni (hInvF.hasLx_items hv)
    have hany : lines.any (isCountedLx drop) = false := by rw [← hlx]; exact hhlxF
    have hcnt : countLx drop lines = 0 := by
      rw [countLx, List.countP_eq_zero]
      intro a ha
      have := List.any_eq_false.1 hany a ha
      simpa using this
    have hlen : stF.recordsOut.length = 0 := by
      have := hg
      rw [hcnt] at this
      simp [gval, hhlxF] at this
      simp [this]
    refine ⟨?_, ?_, ?_⟩
    · rw [hrecs]; exact hInvF.recs_ok
    · rw [hrecs]; simpa [hlen] using hInvF.idx_seq
    · rw [hrecs, hlen, hcnt]
      have : anyItemLine drop lines = false := hitems.1 hni
      simp [this]
  · have hflush := flushState_emit stF hni
    have hInvFl := flushState_inv drop stF hInvF hni
    have hrecs : (parse_sfm lines drop).1 = (flushState stF).recordsOut := by
      simp [parse_sfm, ← hstF]
    have hlen : (flushState stF).recordsOut.length = stF.recordsOut.length + 1 := by
      rw [hflush]; simp
    have hanyI : anyItemLine drop lines = true := by
      cases hv : anyItemLine drop lines
      · exact absurd (hitems.2 hv) hni
      · rfl
    refine ⟨?_, ?_, ?_⟩
    · rw [hrecs]; exact hInvFl.recs_ok
    · rw [hrecs]; exact hInvFl.idx_seq
    · rw [hrecs, hlen]
      cases hv : stF.currentHasLx
      · have hany : lines.any (isCountedLx drop) = false := by rw [← hlx]; exact hv
        have hcnt : countLx drop lines = 0 := by
          rw [countLx, List.countP_eq_zero]
          intro a ha
          have := List.any_eq_false.1 hany a ha
          simpa using this
        have hlen0 : stF.recordsOut.length = 0 := by
          have := hg
          rw [hcnt] at this
          simp [gval, hv] at this
          simp [this]
        rw [hlen0, hcnt]
        simp [hanyI]
      · have hcnt : countLx drop lines = stF.recordsOut.length + 1 := by
          rw [← hg]; simp [gval, hv]
        rw [hcnt]
        simp

end MergeBible

namespace SfmToJson

theorem sjFlush_emit (st : SjState) (hne : st.currentItems ≠ []) :
    sjFlush st =
      { recordsOut := st.recordsOut ++
          [{ recordIndex := st.recIdx,
             headword := headword_from_fields st.currentFields,
             fields := st.currentFields,
             items := st.currentItems }],
        currentItems := [], currentFields := [],
        currentHasLx := false, lastOpen := false,
        recIdx := st.recIdx + 1 } := by
  have hf : ¬ (st.currentItems = [] ∧ st.currentFields = []) := fun h => hne h.1
  simp [sjFlush, finalize_record, hf]

theorem sjFlush_inv (st : SjState) (hInv : InvJ st) (hne : st.currentItems ≠ []) :
    InvJ (sjFlush st) := by
  rw [sjFlush_emit st hne]
  refine ⟨?_, ?_, rfl, ?_, ?_, ?_⟩
  · intro h; cases h
  · intro h; cases h
  · intro r hr
    rcases List.mem_append.1 hr with hr | hr
    · exact hInv.recs_ok r hr
    · rcases List.mem_singleton.1 hr with rfl
      exact ⟨hne, rfl⟩
  · simp [hInv.rec_idx]
  · simp only [List.map_append, List.map_cons, List.map_nil, List.length_append,
      List.length_cons, List.length_nil, hInv.idx_seq, hInv.rec_idx]
    have := List.range'_1_concat 1 st.recordsOut.length
    simpa [Nat.add_comm] using this.symm

theorem sjValue_update_inv (st : SjState) (hInv : InvJ st)
    (hne : st.currentItems ≠ []) (nv : Str) :
    InvJ { st with
      currentItems := updateLastValue st.currentItems nv,
      currentFields := fieldsSetLast st.currentFields (lastMarker st.currentItems) nv } := by
  obtain ⟨xs, x, hx⟩ : ∃ xs x, st.currentItems = xs ++ [x] := by
    rcases List.eq_nil_or_concat st.currentItems with h | ⟨xs, x, h⟩
    · exact absurd h hne
    · exact ⟨xs, x, by simpa using h⟩
  have hlm : lastMarker st.currentItems = x.marker := by
    rw [hx]; simp [lastMarker, List.getLast?_concat]
  refine ⟨?_, ?_, ?_, hInv.recs_ok, hInv.rec_idx, hInv.idx_seq⟩
  · intro _
    exact updateLastValue_ne_nil _ _ hne
  · intro _
    exact updateLastValue_ne_nil _ _ hne
  · rw [hlm, hInv.fields_eq, hx, fieldsOfItems_updateLastValue]

theorem sjStep_inv (st : SjState) (l nx : Str) (hInv : InvJ st) :
    InvJ (sjStep st l nx) := by
  cases hm : markerMatch (rstripCRLF l) with
  | none =>
    by_cases ho : st.lastOpen = true
    · have hne := hInv.open_items ho
      by_cases hblank : (rstripCRLF l).all isPySpace
      · by_cases hnext : (markerMatch (rstripCRLF nx)).isSome
        · have hstep : sjStep st l nx = st := by
            simp [sjStep, hm, ho, hblank, hnext]
          rw [hstep]; exact hInv
        · have hstep : sjStep st l nx =
              { st with
                currentItems := updateLastValue st.currentItems
                  (if lastValue st.currentItems = [] then []
                   else lastValue st.currentItems ++ ['\n']),
                currentFields := fieldsSetLast st.currentFields (lastMarker st.currentItems)
                  (if lastValue st.currentItems = [] then []
                   else lastValue st.currentItems ++ ['\n']) } := by
            simp [sjStep, hm, ho, hblank, hnext]
          rw [hstep]
          exact sjValue_update_inv st hInv hne _
      · have hstep : sjStep st l nx =
            { st with
              currentItems := updateLastValue st.currentItems
                (if lastValue st.currentItems = [] then rstripSpace (rstripCRLF l)
                 else lastValue st.currentItems ++ '\n' :: rstripSpace (rstripCRLF l)),
              currentFields := fieldsSetLast st.currentFields (lastMarker st.currentItems)
                (if lastValue st.currentItems = [] then rstripSpace (rstripCRLF l)
                 else lastValue st.currentItems ++ '\n' :: rstripSpace (rstripCRLF l)) } := by
          simp [sjStep, hm, ho, hblank]
        rw [hstep]
        exact sjValue_update_inv st hInv hne _
    · have ho' : st.lastOpen = false := by
        cases hv : st.lastOpen
        · rfl
        · exact absurd hv ho
      have hstep : sjStep st l nx = st := by
        simp [sjStep, hm, ho']
      rw [hstep]; exact hInv
  | some mw =>
    obtain ⟨m, w⟩ := mw
    by_cases hlx : m = lxM
    · subst hlx
      by_cases hh : st.currentHasLx = true
      · have hne : st.currentItems ≠ [] := hInv.hasLx_items hh
        have hstep : sjStep st l nx =
            { recordsOut := st.recordsOut ++
                [{ recordIndex := st.recIdx,
                   headword := headword_from_fields st.currentFields,
                   fields := st.currentFields,
                   items := st.currentItems }],
              currentItems := [{ marker := lxM, root := (split_marker lxM).1,
                                 subpath := (split_marker lxM).2,
                                 value := rstripSpace w }],
              currentFields := fieldsAppend [] lxM (rstripSpace w),
              currentHasLx := true,
              lastOpen := true,
              recIdx := st.recIdx + 1 } := by
          simp [sjStep, hm, hh, sjFlush_emit st hne]
        have hflush := sjFlush_inv st hInv hne
        rw [sjFlush_emit st hne] at hflush
        rw [hstep]
        exact ⟨fun _ => by simp, fun _ => by simp, rfl,
          hflush.recs_ok, hflush.rec_idx, hflush.idx_seq⟩
      · have hh' : st.currentHasLx = false := by
          cases hv : st.currentHasLx
          · rfl
          · exact absurd hv hh
        have hstep : sjStep st l nx =
            { st with
              currentItems := st.currentItems ++
                [{ marker := lxM, root := (split_marker lxM).1,
                   subpath := (split_marker lxM).2,
                   value := rstripSpace w }],
              currentFields := fieldsAppend st.currentFields lxM (rstripSpace w),
              currentHasLx := true,
              lastOpen := true } := by
          simp [sjStep, hm, hh']
        rw [hstep]
        exact ⟨fun _ => by simp, fun _ => by simp,
          by rw [hInv.fields_eq, fieldsOfItems_concat],
          hInv.recs_ok, hInv.rec_idx, hInv.idx_seq⟩
    · have hstep : sjStep st l nx =
          { st with
            currentItems := st.currentItems ++
              [{ marker := m, root := (split_marker m).1,
                 subpath := (split_marker m).2,
                 value := rstripSpace w }],
            currentFields := fieldsAppend st.currentFields m (rstripSpace w),
            lastOpen := true } := by
        simp [sjStep, hm, hlx]
      rw [hstep]
      exact ⟨fun _ => by simp, fun _ => by simp,
        by rw [hInv.fields_eq, fieldsOfItems_concat],
        hInv.recs_ok, hInv.rec_idx, hInv.idx_seq⟩

theorem sjProcess_inv : ∀ (ls : List Str) (st : SjState), InvJ st →
    InvJ (sjProcess st ls)
  | [], st, hInv => hInv
  | l :: ls, st, hInv =>
    sjProcess_inv ls (sjStep st l (ls.headD [])) (sjStep_inv st l (ls.headD []) hInv)

theorem sjInit_inv : InvJ sjInit := by
  refine ⟨?_, ?_, rfl, ?_, rfl, rfl⟩ <;> simp [sjInit]

theorem parse_sfm_json_spec (lines : List Str) :
    (∀ r ∈ parse_sfm lines, RecOKJ r)
    ∧ (parse_sfm lines).map SfmRecord.recordIndex
        = List.range' 1 (parse_sfm lines).length := by
  have hInvF : InvJ (sjProcess sjInit lines) := sjProcess_inv lines sjInit sjInit_inv
  set stF := sjProcess sjInit lines with hstF
  by_cases hni : stF.currentItems = []
  · have hfe : stF.currentFields = [] := by
      rw [hInvF.fields_eq, hni]; rfl
    have hrecs : parse_sfm lines = stF.recordsOut := by
      simp [parse_sfm, ← hstF, sjFlush, finalize_record, hni, hfe]
    rw [hrecs]
    exact ⟨hInvF.recs_ok, hInvF.idx_seq⟩
  · have hflush := sjFlush_inv stF hInvF hni
    have hrecs : parse_sfm lines = (sjFlush stF).recordsOut := by
      simp [parse_sfm, ← hstF]
    rw [hrecs]
    exact ⟨hflush.recs_ok, hflush.idx_seq⟩

end SfmToJson

/-! ## Remaining helper lemmas -/

theorem headword_from_fields_eq_bind (fs : Fields) :
    headword_from_fields fs = (lookupF fs lxM).bind List.head? := by
  rw [headword_from_fields]
  show (match lookupF fs lxM with
    | some (v :: _) => some v
    | _ => none) = _
  cases h : lookupF fs lxM with
  | none => rfl
  | some vs => cases vs <;> rfl

theorem blank_markerMatch_none (l : Str) (h : l.all isPySpace = true) :
    markerMatch l = none := by
  cases l with
  | nil => rfl
  | cons c rest =>
    have hc : isPySpace c = true := (List.all_cons .. ▸ h |> Bool.and_elim_left)
    have hbs : ¬ c = '\\' := by
      intro hcc
      subst hcc
      simp [isPySpace] at hc
    simp [markerMatch, hbs]

theorem dropWhile_hyphen_cons (m : Str) (h : '-' ∈ m) :
    ∃ t, m.dropWhile (fun c => !(c = '-')) = '-' :: t := by
  induction m with
  | nil => cases h
  | cons c rest ih =>
    by_cases hc : c = '-'
    · subst hc
      exact ⟨rest, by simp [List.dropWhile]⟩
    · have hr : '-' ∈ rest := by
        rcases List.mem_cons.1 h with h1 | h1
        · exact absurd h1.symm hc
        · exact h1
      obtain ⟨t, ht⟩ := ih hr
      exact ⟨t, by simp [List.dropWhile, hc, ht]⟩

theorem lookupF_filterKey_self (fs : Fields) (m : Str) :
    lookupF (fs.filter (fun kv => !(kv.1 = m))) m = none := by
  induction fs with
  | nil => rfl
  | cons kv rest ih =>
    obtain ⟨k, vs⟩ := kv
    by_cases hk : k = m
    · simp [List.filter, hk, ih]
    · simp [List.filter, hk, lookupF, ih]

theorem lookupF_filterKey_other (fs : Fields) (m m' : Str) (h : ¬ m' = m) :
    lookupF (fs.filter (fun kv => !(kv.1 = m))) m' = lookupF fs m' := by
  induction fs with
  | nil => rfl
  | cons kv rest ih =>
    obtain ⟨k, vs⟩ := kv
    by_cases hk : k = m
    · subst hk
      simp [List.filter, lookupF, Ne.symm h, ih]
    · simp [List.filter, hk, lookupF, ih]

theorem foldl_append_singleton {α β : Type} (f : α → β) :
    ∀ (ls : List α) (acc : List β),
      List.foldl (fun acc bl => acc ++ [f bl]) acc ls = acc ++ ls.map f
  | [], acc => by simp
  | l :: ls, acc => by
    rw [List.foldl_cons, foldl_append_singleton f ls (acc ++ [f l])]
    simp

theorem decodeLineImpl_eq_spec (bl : List Nat) :
    decodeLineImpl bl = decodeLineSpec bl := by
  by_cases hb : bl = []
  · simp [decodeLineImpl, decodeLineSpec, hb]
  · simp only [decodeLineImpl, decodeLineSpec, hb, if_neg hb]
    cases h8 : utf8Decode bl with
    | some s => simp [Option.or]
    | none =>
      cases h12 : cp1252Decode bl with
      | some s => simp [Option.or]
      | none => simp [Option.or]

/-! ## Claim theorems -/

/-- C7: for every marker string accepted by the marker classifier, splitting
at the first hyphen gives a root that never contains a hyphen, a subpath
that is absent exactly when the marker contains no hyphen, and — when the
subpath is present — `root ++ "-" ++ subpath` reconstructs the marker
exactly. -/
theorem C7_split_marker_roundtrip (line m w : Str)
    (hacc : markerMatch line = some (m, w)) :
    '-' ∉ (split_marker m).1
    ∧ ((split_marker m).2 = none ↔ '-' ∉ m)
    ∧ (∀ s, (split_marker m).2 = some s → (split_marker m).1 ++ '-' :: s = m) := by
  clear hacc
  by_cases h : '-' ∈ m
  · refine ⟨?_, ?_, ?_⟩
    · rw [split_marker, if_pos h]
      intro hmem
      have := List.mem_takeWhile_imp hmem
      simp at this
    · rw [split_marker, if_pos h]
      simp [h]
    · intro s hs
      rw [split_marker, if_pos h] at hs ⊢
      simp only [Option.some.injEq] at hs
      subst hs
      obtain ⟨t, ht⟩ := dropWhile_hyphen_cons m h
      calc m.takeWhile (fun c => !(c = '-')) ++ '-' :: (m.dropWhile (fun c => !(c = '-'))).tail
          = m.takeWhile (fun c => !(c = '-')) ++ m.dropWhile (fun c => !(c = '-')) := by
            rw [ht]; rfl
        _ = m := List.takeWhile_append_dropWhile _ _
  · refine ⟨?_, ?_, ?_⟩
    · rw [split_marker, if_neg h]
      exact h
    · rw [split_marker, if_neg h]
      simp [h]
    · intro s hs
      rw [split_marker, if_neg h] at hs
      cases hs

/-- Witness for C7 at the marker `if-prefix-x` from the claim. -/
theorem C7_split_marker_roundtrip_witness :
    markerMatch ("\\if-prefix-x abc".toList) = some ("if-prefix-x".toList, "abc".toList)
    ∧ ('-' ∉ (split_marker ("if-prefix-x".toList)).1
       ∧ ((split_marker ("if-prefix-x".toList)).2 = none ↔ '-' ∉ ("if-prefix-x".toList))
       ∧ (∀ s, (split_marker ("if-prefix-x".toList)).2 = some s →
           (split_marker ("if-prefix-x".toList)).1 ++ '-' :: s = "if-prefix-x".toList)) :=
  ⟨by decide,
   C7_split_marker_roundtrip ("\\if-prefix-x abc".toList) ("if-prefix-x".toList)
     ("abc".toList) (by decide)⟩

/-- C10: `strip_marker_from_records` removes exactly the stripped marker's
entry from each record's field map and its items from each record's item
list, and changes nothing else: record count, `record_index`, the stored
`headword`, and every other marker's field entry are unchanged (a record
whose items all carried the stripped marker stays in the list with an empty
item list). -/
theorem C10_strip_marker_frame (records : List SfmRecord) (m m' : Str) (k : Nat)
    (hm' : ¬ m' = m) :
    (SfmToJson.strip_marker_from_records records m).length = records.length
    ∧ ((SfmToJson.strip_marker_from_records records m)[k]?).map SfmRecord.recordIndex
        = (records[k]?).map SfmRecord.recordIndex
    ∧ ((SfmToJson.strip_marker_from_records records m)[k]?).map SfmRecord.headword
        = (records[k]?).map SfmRecord.headword
    ∧ ((SfmToJson.strip_marker_from_records records m)[k]?).map SfmRecord.items
        = (records[k]?).map (fun r => r.items.filter (fun it => !(it.marker = m)))
    ∧ ((SfmToJson.strip_marker_from_records records m)[k]?).map
          (fun r => lookupF r.fields m)
        = (records[k]?).map (fun _ => (none : Option (List Str)))
    ∧ ((SfmToJson.strip_marker_from_records records m)[k]?).map
          (fun r => lookupF r.fields m')
        = (records[k]?).map (fun r => lookupF r.fields m') := by
  refine ⟨by simp [SfmToJson.strip_marker_from_records], ?_, ?_, ?_, ?_, ?_⟩ <;>
    simp only [SfmToJson.strip_marker_from_records, List.getElem?_map, Option.map_map] <;>
    cases hr : records[k]? <;>
    simp [lookupF_filterKey_self, lookupF_filterKey_other _ _ _ hm']

/-- Witness for C10 on a concrete one-record list whose record carries both
an `_sh` field and a `ps` field. -/
theorem C10_strip_marker_frame_witness :
    (¬ "ps".toList = "_sh".toList)
    ∧ ((SfmToJson.strip_marker_from_records
          [{ recordIndex := 1, headword := some "a".toList,
             fields := [("_sh".toList, ["h".toList]), ("ps".toList, ["n".toList])],
             items := [{ marker := "_sh".toList, root := "_sh".toList,
                         subpath := none, value := "h".toList },
                       { marker := "ps".toList, root := "ps".toList,
                         subpath := none, value := "n".toList }] }] "_sh".toList)[0]?).map
        (fun r => lookupF r.fields "_sh".toList)
      = (([{ recordIndex := 1, headword := some "a".toList,
             fields := [("_sh".toList, ["h".toList]), ("ps".toList, ["n".toList])],
             items := [{ marker := "_sh".toList, root := "_sh".toList,
                         subpath := none, value := "h".toList },
                       { marker := "ps".toList, root := "ps".toList,
                         subpath := none, value := "n".toList }] }] : List SfmRecord)[0]?).map
          (fun _ => (none : Option (List Str))) :=
  ⟨by decide,
   (C10_strip_marker_frame
     [{ recordIndex := 1, headword := some "a".toList,
        fields := [("_sh".toList, ["h".toList]), ("ps".toList, ["n".toList])],
        items := [{ marker := "_sh".toList, root := "_sh".toList,
                    subpath := none, value := "h".toList },
                  { marker := "ps".toList, root := "ps".toList,
                    subpath := none, value := "n".toList }] }]
     "_sh".toList "ps".toList 0 (by decide)).2.2.2.2.1⟩

/-- C8: merging a parsed source under a `source_id` that already exists in
the base document's lexicon list raises a descriptive error rather than
silently overwriting, unless the caller passed the replace permission; when
the id is fresh (or replace is allowed) no error is raised and the lexicon
is appended (or replaces the existing entry in place). -/
theorem C8_duplicate_source_guard (base : BaseDoc) (sid : Str)
    (records : List SfmRecord) :
    ((∃ lex ∈ base.lexicons, lex.sourceId = some sid) →
       (∃ msg, add_or_replace_lexicon base sid records false = .error msg)
       ∧ (∃ i, i < base.lexicons.length ∧
            add_or_replace_lexicon base sid records true =
              .ok { base with lexicons :=
                      base.lexicons.set i ⟨some sid, records⟩ }))
    ∧ ((∀ lex ∈ base.lexicons, ¬ lex.sourceId = some sid) → ∀ rep : Bool,
         add_or_replace_lexicon base sid records rep =
           .ok { base with lexicons := base.lexicons ++
                   [{ sourceId := some sid, records := records }] })
    ∧ (∀ src : SourceMeta,
        ((∃ lex ∈ base.lexicons, lex.sourceId = some sid) →
           ∃ msg, merge_into_raw_lexicon base src sid records = .error msg)
        ∧ ((∀ lex ∈ base.lexicons, ¬ lex.sourceId = some sid) →
             ∃ doc, merge_into_raw_lexicon base src sid records = .ok doc
               ∧ doc.lexicons = base.lexicons ++
                   [{ sourceId := some sid, records := records }])) := by
  refine ⟨?_, ?_, ?_⟩
  · intro hex
    have hany : base.lexicons.any (fun lex => lex.sourceId = some sid) = true := by
      rw [List.any_eq_true]
      obtain ⟨lex, hmem, hid⟩ := hex
      exact ⟨lex, hmem, by simp [hid]⟩
    have hsome : (base.lexicons.findIdx? (fun lex => lex.sourceId = some sid)).isSome := by
      rw [List.findIdx?_isSome, hany]
    obtain ⟨i, hi⟩ := Option.isSome_iff_exists.1 hsome
    have hlt : i < base.lexicons.length :=
      (List.findIdx?_eq_some_iff_findIdx_eq.1 hi).1
    constructor
    · exact ⟨_, by simp only [add_or_replace_lexicon, hi]; rfl⟩
    · exact ⟨i, hlt, by simp only [add_or_replace_lexicon, hi]; rfl⟩
  · intro hall rep
    have hnone : base.lexicons.findIdx? (fun lex => lex.sourceId = some sid) = none := by
      rw [List.findIdx?_eq_none_iff]
      intro lex hmem
      simp [hall lex hmem]
    simp only [add_or_replace_lexicon, hnone]
  · intro src
    constructor
    · intro hex
      have hany : base.lexicons.any (fun lex => lex.sourceId = some sid) = true := by
        rw [List.any_eq_true]
        obtain ⟨lex, hmem, hid⟩ := hex
        exact ⟨lex, hmem, by simp [hid]⟩
      exact ⟨_, by simp only [merge_into_raw_lexicon, hany]; rfl⟩
    · intro hall
      have hany : base.lexicons.any (fun lex => lex.sourceId = some sid) = false := by
        rw [List.any_eq_false]
        intro lex hmem
        simp [hall lex hmem]
      refine ⟨_, by simp only [merge_into_raw_lexicon, hany]; rfl, rfl⟩

/-- Witness for C8 on a one-lexicon base document: the duplicate id is
rejected without `replace` and the fresh id is appended. -/
theorem C8_duplicate_source_guard_witness :
    (∃ lex ∈ (BaseDoc.mk [] [{ sourceId := some "s1".toList, records := [] }]).lexicons,
       lex.sourceId = some "s1".toList)
    ∧ ((∃ msg, add_or_replace_lexicon
          (BaseDoc.mk [] [{ sourceId := some "s1".toList, records := [] }])
          "s1".toList [] false = .error msg)
       ∧ (∃ i, i < (BaseDoc.mk [] [{ sourceId := some "s1".toList, records := [] }]).lexicons.length ∧
            add_or_replace_lexicon
              (BaseDoc.mk [] [{ sourceId := some "s1".toList, records := [] }])
              "s1".toList [] true =
              .ok { BaseDoc.mk [] [{ sourceId := some "s1".toList, records := [] }] with
                      lexicons :=
                        (BaseDoc.mk [] [{ sourceId := some "s1".toList,
                                          records := [] }]).lexicons.set i
                          ⟨some "s1".toList, []⟩ })) :=
  ⟨⟨{ sourceId := some "s1".toList, records := [] }, by decide, rfl⟩,
   (C8_duplicate_source_guard
      (BaseDoc.mk [] [{ sourceId := some "s1".toList, records := [] }])
      "s1".toList []).1
     ⟨{ sourceId := some "s1".toList, records := [] }, by decide, rfl⟩⟩

/-- C6: the byte decoder never raises: after stripping a UTF-8 BOM from the
start of the first line only, the decoded text is the per-line results
joined with a newline, where each non-empty physical line is decoded by the
first strategy that succeeds in the strict order UTF-8 strict, cp1252
strict, then latin-1 with lossy replacement (a total function), and an
empty line decodes to the empty string without attempting the chain. -/
theorem C6_decoder_fallback_chain (data : List Nat) :
    (decode_mixed_lines data).1 =
      List.intercalate [10] ((stripBOM (bSplitlines data)).map decodeLineSpec)
    ∧ (∀ bl s, utf8Decode bl = some s → decodeLineSpec bl = s)
    ∧ (∀ bl s, bl ≠ [] → utf8Decode bl = none → cp1252Decode bl = some s →
        decodeLineSpec bl = s)
    ∧ (∀ bl, bl ≠ [] → utf8Decode bl = none → cp1252Decode bl = none →
        decodeLineSpec bl = latin1Replace bl)
    ∧ decodeLineSpec [] = [] := by
  refine ⟨?_, ?_, ?_, ?_, rfl⟩
  · have himpl : decodeLineImpl = decodeLineSpec := funext decodeLineImpl_eq_spec
    simp [decode_mixed_lines, foldl_append_singleton, himpl]
  · intro bl s h8
    by_cases hb : bl = []
    · subst hb
      have : s = [] := by
        have : (some [] : Option (List Nat)) = some s := by rw [← h8]; rfl
        simpa using this.symm
      simp [decodeLineSpec, this]
    · simp [decodeLineSpec, hb, h8, Option.or]
  · intro bl s hb h8 h12
    simp [decodeLineSpec, hb, h8, h12, Option.or]
  · intro bl hb h8 h12
    simp [decodeLineSpec, hb, h8, h12, Option.or]

/-- Witness for C6: the byte `0xE9` is invalid UTF-8, decodes as cp1252. -/
theorem C6_decoder_fallback_chain_witness :
    ([0xE9] : List Nat) ≠ [] ∧ utf8Decode [0xE9] = none
    ∧ cp1252Decode [0xE9] = some [0xE9] ∧ decodeLineSpec [0xE9] = [0xE9] :=
  ⟨by decide, by decide, by decide,
   (C6_decoder_fallback_chain []).2.2.1 [0xE9] [0xE9] (by decide) (by decide) (by decide)⟩

/-- C2: the number of emitted records equals the number of `lx` marker
lines that survive drop-set filtering, except that an input with zero such
lines yields one record when at least one item was created and zero records
otherwise. -/
theorem C2_record_count (lines drop : List Str) :
    (MergeBible.parse_sfm lines drop).1.length =
      (if countLx drop lines ≠ 0 then countLx drop lines
       else if anyItemLine drop lines then 1 else 0) :=
  (MergeBible.parse_sfm_spec lines drop).2.2

/-- C3: in every emitted record and for every marker occurring in it, the
trailing entry of the field map equals the value of the most recent item
with that marker — the field map and item list never diverge, including
after continuation-line merging and blank-line preservation. -/
theorem C3_fields_items_never_diverge (lines drop : List Str) (r : SfmRecord)
    (m : Str) (vs : List Str) (hr : r ∈ (MergeBible.parse_sfm lines drop).1)
    (hv : lookupF r.fields m = some vs) :
    vs ≠ [] ∧ vs.getLast? = ((itemsFor r.items m).getLast?).map Item.value := by
  have hok := (MergeBible.parse_sfm_spec lines drop).1 r hr
  rw [hok.fields_eq, lookupF_fieldsOfItems] at hv
  by_cases he : itemsFor r.items m = []
  · rw [if_pos he] at hv; cases hv
  · rw [if_neg he] at hv
    have hvs : vs = (itemsFor r.items m).map Item.value := (Option.some.inj hv).symm
    subst hvs
    exact ⟨by simp [he], List.getLast?_map _ _⟩

/-- Witness for C3 on a record whose `lx` value was extended by a
continuation line. -/
theorem C3_fields_items_never_diverge_witness :
    ({ recordIndex := 1, headword := some "a\nb".toList,
       fields := [("lx".toList, ["a\nb".toList])],
       items := [{ marker := "lx".toList, root := "lx".toList,
                   subpath := none, value := "a\nb".toList }] } : SfmRecord)
      ∈ (MergeBible.parse_sfm ["\\lx a".toList, "b".toList] []).1
    ∧ lookupF [("lx".toList, ["a\nb".toList])] "lx".toList = some ["a\nb".toList]
    ∧ (["a\nb".toList] ≠ []
       ∧ (["a\nb".toList]).getLast? =
          ((itemsFor [{ marker := "lx".toList, root := "lx".toList,
                        subpath := none, value := "a\nb".toList }] "lx".toList).getLast?).map
            Item.value) :=
  ⟨by decide, by decide,
   C3_fields_items_never_diverge ["\\lx a".toList, "b".toList] []
     { recordIndex := 1, headword := some "a\nb".toList,
       fields := [("lx".toList, ["a\nb".toList])],
       items := [{ marker := "lx".toList, root := "lx".toList,
                   subpath := none, value := "a\nb".toList }] }
     "lx".toList ["a\nb".toList] (by decide) (by decide)⟩

/-- C4: flushing a record with no items emits nothing, every emitted record
carries a 1-based strictly sequential `record_index` (the k-th emitted
record has index k), and its headword is the first value of its `lx` field
when present and absent otherwise — for both parser variants. -/
theorem C4_flush_and_record_identity (lines drop : List Str) :
    ((∀ st : MergeBible.ParseState, st.currentItems = [] → st.currentFields = [] →
        (MergeBible.flushState st).recordsOut = st.recordsOut)
     ∧ (∀ r ∈ (MergeBible.parse_sfm lines drop).1,
          r.items ≠ []
          ∧ (∀ vs, lookupF r.fields lxM = some vs → r.headword = vs.head?)
          ∧ (lookupF r.fields lxM = none → r.headword = none))
     ∧ (MergeBible.parse_sfm lines drop).1.map SfmRecord.recordIndex
         = List.range' 1 (MergeBible.parse_sfm lines drop).1.length)
    ∧ ((∀ (items : List Item) (fields : Fields) (i : Nat) (out : List SfmRecord),
          items = [] → fields = [] → SfmToJson.finalize_record items fields i out = out)
     ∧ (∀ r ∈ SfmToJson.parse_sfm lines,
          r.items ≠ []
          ∧ (∀ vs, lookupF r.fields lxM = some vs → r.headword = vs.head?)
          ∧ (lookupF r.fields lxM = none → r.headword = none))
     ∧ (SfmToJson.parse_sfm lines).map SfmRecord.recordIndex
         = List.range' 1 (SfmToJson.parse_sfm lines).length) := by
  refine ⟨⟨?_, ?_, (MergeBible.parse_sfm_spec lines drop).2.1⟩,
          ⟨?_, ?_, (SfmToJson.parse_sfm_json_spec lines).2⟩⟩
  · intro st h1 h2
    simp [MergeBible.flushState, h1, h2]
  · intro r hr
    have hok := (MergeBible.parse_sfm_spec lines drop).1 r hr
    have hh := hok.headword_eq
    rw [headword_from_fields_eq_bind] at hh
    refine ⟨hok.nonempty, ?_, ?_⟩
    · intro vs hvs
      rw [hh, hvs]
      rfl
    · intro hnone
      rw [hh, hnone]
      rfl
  · intro items fields i out h1 h2
    simp [SfmToJson.finalize_record, h1, h2]
  · intro r hr
    have hok := (SfmToJson.parse_sfm_json_spec lines).1 r hr
    have hh := hok.headword_eq
    rw [headword_from_fields_eq_bind] at hh
    refine ⟨hok.nonempty, ?_, ?_⟩
    · intro vs hvs
      rw [hh, hvs]
      rfl
    · intro hnone
      rw [hh, hnone]
      rfl

/-- Witness for C4 on the second of two emitted records. -/
theorem C4_flush_and_record_identity_witness :
    ({ recordIndex := 2, headword := some "b".toList,
       fields := [("lx".toList, ["b".toList])],
       items := [{ marker := "lx".toList, root := "lx".toList,
                   subpath := none, value := "b".toList }] } : SfmRecord)
      ∈ (MergeBible.parse_sfm ["\\lx a".toList, "\\lx b".toList] []).1
    ∧ (({ recordIndex := 2, headword := some "b".toList,
          fields := [("lx".toList, ["b".toList])],
          items := [{ marker := "lx".toList, root := "lx".toList,
                      subpath := none, value := "b".toList }] } : SfmRecord).items ≠ []
       ∧ (∀ vs, lookupF [("lx".toList, ["b".toList])] lxM = some vs →
            (some "b".toList : Option Str) = vs.head?)
       ∧ (lookupF [("lx".toList, ["b".toList])] lxM = none →
            (some "b".toList : Option Str) = none)) :=
  ⟨by decide,
   (C4_flush_and_record_identity ["\\lx a".toList, "\\lx b".toList] []).1.2.1
     { recordIndex := 2, headword := some "b".toList,
       fields := [("lx".toList, ["b".toList])],
       items := [{ marker := "lx".toList, root := "lx".toList,
                   subpath := none, value := "b".toList }] }
     (by decide)⟩

/-- C5: a marker in the drop set is discarded entirely — no item, no field
entry in any emitted record — and a dropped marker line clears the open
item so the following continuation and blank lines (which have no owner)
are discarded unchanged. -/
theorem C5_drop_set_scrubs (lines drop : List Str) (X : Str) (hX : X ∈ drop) :
    (∀ r ∈ (MergeBible.parse_sfm lines drop).1,
       (∀ it ∈ r.items, ¬ it.marker = X) ∧ lookupF r.fields X = none)
    ∧ (∀ (st : MergeBible.ParseState) (l nx w : Str),
        markerMatch (rstripCRLF l) = some (X, w) →
        MergeBible.stepLine drop st l nx = { st with lastOpen := false })
    ∧ (∀ (st : MergeBible.ParseState) (l nx : Str),
        st.lastOpen = false → markerMatch (rstripCRLF l) = none →
        MergeBible.stepLine drop st l nx = st) := by
  refine ⟨?_, ?_, ?_⟩
  · intro r hr
    have hok := (MergeBible.parse_sfm_spec lines drop).1 r hr
    have hmk : ∀ it ∈ r.items, ¬ it.marker = X := by
      intro it hit heq
      exact hok.items_drop it hit (heq ▸ hX)
    refine ⟨hmk, ?_⟩
    rw [hok.fields_eq, lookupF_fieldsOfItems]
    have he : itemsFor r.items X = [] := by
      rw [itemsFor, List.filter_eq_nil_iff]
      intro it hit
      simpa using hmk it hit
    rw [if_pos he]
  · intro st l nx w hm
    simp [MergeBible.stepLine, hm, hX]
  · intro st l nx ho hm
    simp [MergeBible.stepLine, hm, ho]

/-- Witness for C5: dropping `st` scrubs the `st` line and its
continuation line from the emitted record. -/
theorem C5_drop_set_scrubs_witness :
    ("st".toList ∈ [("st".toList : Str)])
    ∧ (∀ r ∈ (MergeBible.parse_sfm
          ["\\lx a".toList, "\\st x".toList, "cont".toList] ["st".toList]).1,
        (∀ it ∈ r.items, ¬ it.marker = "st".toList)
        ∧ lookupF r.fields "st".toList = none) :=
  ⟨by decide,
   (C5_drop_set_scrubs ["\\lx a".toList, "\\st x".toList, "cont".toList]
     ["st".toList] "st".toList (by decide)).1⟩

/-- C9: every emitted record contains at most one item whose marker is
exactly `lx`, and when such an item is present the record's headword is
that item's final accumulated value. -/
theorem C9_at_most_one_lx (lines drop : List Str) (r : SfmRecord)
    (hr : r ∈ (MergeBible.parse_sfm lines drop).1) :
    countLxItems r.items ≤ 1
    ∧ (∀ it : Item, itemsFor r.items lxM = [it] → r.headword = some it.value) := by
  have hok := (MergeBible.parse_sfm_spec lines drop).1 r hr
  refine ⟨hok.lx_count, ?_⟩
  · intro it hit
    rw [hok.headword_eq, headword_from_fields_eq_bind, hok.fields_eq,
      lookupF_fieldsOfItems, hit]
    simp

/-- Witness for C9 on a two-field record. -/
theorem C9_at_most_one_lx_witness :
    ({ recordIndex := 1, headword := some "a".toList,
       fields := [("lx".toList, ["a".toList]), ("ps".toList, ["n".toList])],
       items := [{ marker := "lx".toList, root := "lx".toList,
                   subpath := none, value := "a".toList },
                 { marker := "ps".toList, root := "ps".toList,
                   subpath := none, value := "n".toList }] } : SfmRecord)
      ∈ (MergeBible.parse_sfm ["\\lx a".toList, "\\ps n".toList] []).1
    ∧ (countLxItems [{ marker := "lx".toList, root := "lx".toList,
                       subpath := none, value := "a".toList },
                     { marker := "ps".toList, root := "ps".toList,
                       subpath := none, value := "n".toList }] ≤ 1
       ∧ (∀ it : Item,
           itemsFor [{ marker := "lx".toList, root := "lx".toList,
                       subpath := none, value := "a".toList },
                     { marker := "ps".toList, root := "ps".toList,
                       subpath := none, value := "n".toList }] lxM = [it] →
           (some "a".toList : Option Str) = some it.value)) :=
  ⟨by decide,
   C9_at_most_one_lx ["\\lx a".toList, "\\ps n".toList] []
     { recordIndex := 1, headword := some "a".toList,
       fields := [("lx".toList, ["a".toList]), ("ps".toList, ["n".toList])],
       items := [{ marker := "lx".toList, root := "lx".toList,
                   subpath := none, value := "a".toList },
                 { marker := "ps".toList, root := "ps".toList,
                   subpath := none, value := "n".toList }] }
     (by decide)⟩

/-- Counterexample to C1 as stated: C1 claims a blank line that is the last
line of the input is discarded (treated like a blank line followed by a
marker line), so parsing `"\lx a\n\n"` — lines `["\lx a", ""]` — would
leave the `lx` value `"a"`.  The code substitutes `""` as the lookahead
line at end-of-input, and `""` does not match the marker regex, so the
trailing blank line is preserved and the value becomes `"a\n"`. -/
theorem C1_blank_line_counterexample :
    (MergeBible.parse_sfm ["\\lx a".toList, []] []).1.map SfmRecord.headword
      = [some "a\n".toList]
    ∧ ¬ (MergeBible.parse_sfm ["\\lx a".toList, []] []).1.map SfmRecord.headword
      = [some "a".toList] := by decide

/-- C1 (amended): when the parser meets a blank line while an item is open,
it discards the blank line exactly when the lookahead line (the next line,
or the substituted empty line at end-of-input) is a recognized marker line;
the substituted empty lookahead line never matches the marker regex, so a
blank final line is preserved.  Preservation appends a newline to the open
item's value when the value is non-empty, leaves it empty when it is empty,
and syncs the trailing fields entry.  A blank line with no open item is
always discarded. -/
theorem C1_blank_line_amended (drop : List Str) (st : MergeBible.ParseState)
    (l nx : Str) (hblank : (rstripCRLF l).all isPySpace = true) :
    (st.lastOpen = false → MergeBible.stepLine drop st l nx = st)
    ∧ (st.lastOpen = true → (markerMatch (rstripCRLF nx)).isSome = true →
        MergeBible.stepLine drop st l nx = st)
    ∧ (st.lastOpen = true → (markerMatch (rstripCRLF nx)).isSome = false →
        MergeBible.stepLine drop st l nx =
          { st with
            currentItems := updateLastValue st.currentItems
              (if lastValue st.currentItems = [] then []
               else lastValue st.currentItems ++ ['\n']),
            currentFields := fieldsSetLast st.currentFields
              (lastMarker st.currentItems)
              (if lastValue st.currentItems = [] then []
               else lastValue st.currentItems ++ ['\n']) })
    ∧ markerMatch (rstripCRLF ([] : Str)) = none := by
  have hm := blank_markerMatch_none _ hblank
  refine ⟨?_, ?_, ?_, rfl⟩
  · intro ho
    simp [MergeBible.stepLine, hm, ho]
  · intro ho hn
    simp [MergeBible.stepLine, hm, ho, hblank, hn]
  · intro ho hn
    simp [MergeBible.stepLine, hm, ho, hblank, hn]

/-- Witness for the amended C1 at a blank line that is the last line of the
input (empty lookahead): the blank is preserved in the open `nt` value. -/
theorem C1_blank_line_amended_witness :
    ((rstripCRLF " ".toList).all isPySpace = true)
    ∧ (({ recordsOut := [], usedMarkers := ["nt".toList],
          currentItems := [{ marker := "nt".toList, root := "nt".toList,
                             subpath := none, value := "x".toList }],
          currentFields := [("nt".toList, ["x".toList])],
          currentHasLx := false, lastOpen := true } : MergeBible.ParseState).lastOpen = true)
    ∧ ((markerMatch (rstripCRLF ([] : Str))).isSome = false)
    ∧ MergeBible.stepLine []
        { recordsOut := [], usedMarkers := ["nt".toList],
          currentItems := [{ marker := "nt".toList, root := "nt".toList,
                             subpath := none, value := "x".toList }],
          currentFields := [("nt".toList, ["x".toList])],
          currentHasLx := false, lastOpen := true } " ".toList [] =
        { ({ recordsOut := [], usedMarkers := ["nt".toList],
             currentItems := [{ marker := "nt".toList, root := "nt".toList,
                                subpath := none, value := "x".toList }],
             currentFields := [("nt".toList, ["x".toList])],
             currentHasLx := false, lastOpen := true } : MergeBible.ParseState) with
          currentItems := updateLastValue
            [{ marker := "nt".toList, root := "nt".toList,
               subpath := none, value := "x".toList }]
            (if lastValue [{ marker := "nt".toList, root := "nt".toList,
                             subpath := none, value := "x".toList }] = [] then []
             else lastValue [{ marker := "nt".toList, root := "nt".toList,
                               subpath := none, value := "x".toList }] ++ ['\n']),
          currentFields := fieldsSetLast [("nt".toList, ["x".toList])]
            (lastMarker [{ marker := "nt".toList, root := "nt".toList,
                           subpath := none, value := "x".toList }])
            (if lastValue [{ marker := "nt".toList, root := "nt".toList,
                             subpath := none, value := "x".toList }] = [] then []
             else lastValue [{ marker := "nt".toList, root := "nt".toList,
                               subpath := none, value := "x".toList }] ++ ['\n']) } :=
  ⟨by decide, by decide, by decide,
   (C1_blank_line_amended []
     { recordsOut := [], usedMarkers := ["nt".toList],
       currentItems := [{ marker := "nt".toList, root := "nt".toList,
                          subpath := none, value := "x".toList }],
       currentFields := [("nt".toList, ["x".toList])],
       currentHasLx := false, lastOpen := true } " ".toList [] (by decide)).2.2.1
     (by decide) (by decide)⟩
